import Mathlib

/-!
Verification of the yamf-hash codec (`src/lib.rs`).

Bytes are modelled as natural numbers (values below 256 in real inputs) and
byte buffers as `List Nat`.  Fallible operations return `Except`; operations
that can panic in Rust (slice-range indexing, `copy_from_slice` with
mismatched lengths) return `Option`, with `none` standing for a panic.
-/

deriving instance DecidableEq for Except

namespace Varu64

/-- Modelled from the spec: the variable-length integer codec (spec section
4.1) is the external `varu64` dependency of the crate, whose source is not in
this repository.  Per the spec and the varu64 wire format, a value below 248
is encoded as itself in one byte; otherwise a prefix byte `247 + k` announces
a `k`-byte big-endian payload, and decoding enforces the canonical (shortest)
form.  `encodingLength` returns the exact byte count an encoding occupies. -/
def encodingLength (n : Nat) : Nat :=
  if n < 248 then 1
  else if n < 2 ^ 8 then 2
  else if n < 2 ^ 16 then 3
  else if n < 2 ^ 24 then 4
  else if n < 2 ^ 32 then 5
  else if n < 2 ^ 40 then 6
  else if n < 2 ^ 48 then 7
  else if n < 2 ^ 56 then 8
  else 9

/-- Big-endian bytes of `n`, exactly `k` bytes. -/
def bigEndian : Nat → Nat → List Nat
  | 0, _ => []
  | k + 1, n => bigEndian k (n / 256) ++ [n % 256]

/-- Modelled from the spec: `varu64::encode` writes the canonical encoding of
`n` (the single byte `n` when `n < 248`, else prefix byte plus big-endian
payload). -/
def encode (n : Nat) : List Nat :=
  if n < 248 then [n]
  else (247 + (encodingLength n - 1)) :: bigEndian (encodingLength n - 1) n

/-- Decode errors of the varu64 codec, as in the `varu64` crate. -/
inductive DecodeErr where
  | UnexpectedEndOfInput
  | NonCanonical
deriving DecidableEq, Repr

/-- Value of big-endian bytes. -/
def fromBigEndian (bs : List Nat) : Nat :=
  bs.foldl (fun a b => a * 256 + b) 0

/-- Smallest value whose canonical encoding uses a `k`-byte payload. -/
def minForLength (k : Nat) : Nat :=
  if k ≤ 1 then 248 else 2 ^ (8 * (k - 1))

/-- Modelled from the spec: `varu64::decode` parses the smallest valid prefix
of `bytes`, failing on empty or truncated input and on non-canonical
(overlong) encodings; on success it returns the value and the unconsumed
suffix. -/
def decode (bytes : List Nat) : Except DecodeErr (Nat × List Nat) :=
  match bytes with
  | [] => .error .UnexpectedEndOfInput
  | b :: tail =>
    if b < 248 then .ok (b, tail)
    else
      let k := b - 247
      if tail.length < k then .error .UnexpectedEndOfInput
      else
        let n := fromBigEndian (tail.take k)
        if n < minForLength k then .error .NonCanonical
        else .ok (n, tail.drop k)

end Varu64

def BLAKE3_HASH_SIZE : Nat := 32

def BLAKE3_NUMERIC_ID : Nat := 0

def MAX_YAMF_HASH_SIZE : Nat := BLAKE3_HASH_SIZE + 2

/-- Error type of the crate (`mod error`); the `error` module's source file is
not under `src/`, but the variant set used by `lib.rs` is fully determined by
its uses there: `EncodeError`, `EncodeWriteError`, `DecodeError` and
`DecodeVaru64Error`. -/
inductive Error where
  | EncodeError
  | EncodeWriteError
  | DecodeError
  | DecodeVaru64Error
deriving DecidableEq, Repr

/-- The tagged union `YamfHash<T: Borrow<[u8]>>`, generic over the byte
container; the borrow operation is passed explicitly as a function
`T → List Nat` where needed. -/
inductive YamfHash (T : Type) where
  | Blake3 (digest : T)
deriving DecidableEq, Repr

/-- The owned container `ArrayVec<[u8; BLAKE3_HASH_SIZE]>`: a byte list of
length at most the fixed capacity 32. -/
def ArrayVec := { l : List Nat // l.length ≤ BLAKE3_HASH_SIZE }

instance : DecidableEq ArrayVec := fun a b =>
  decidable_of_iff (a.val = b.val) Subtype.ext_iff.symm

/-- Borrow of an `ArrayVec` as a byte slice. -/
def ArrayVec.data (v : ArrayVec) : List Nat := v.val

/-- The `PartialEq` implementation: two values (over possibly different
containers) are equal exactly when the borrowed digest bytes coincide. -/
def yamfHashEq {A B : Type} (borrowA : A → List Nat) (borrowB : B → List Nat)
    (a : YamfHash A) (b : YamfHash B) : Bool :=
  match a, b with
  | .Blake3 v, .Blake3 w => borrowA v == borrowB w

/-- Modelled from the spec: the cryptographic digest primitive
`digest(bytes) -> fixed 32-byte output` is the external `blake3` dependency
(spec section 6 treats it as a collaborator, assumed deterministic with a
fixed 32-byte output); we model it as a concrete deterministic function
returning exactly 32 bytes. -/
def blake3 (m : List Nat) : List Nat :=
  (List.range BLAKE3_HASH_SIZE).map
    (fun i => m.foldl (fun a b => (a * 131 + b + 1) % 256) ((i + 7) % 256))

theorem blake3_length (m : List Nat) : (blake3 m).length = BLAKE3_HASH_SIZE := by
  simp [blake3]

/-- `new_blake3`: computes the digest of `bytes` and wraps it as an owned
`YamfHash::Blake3`. -/
def new_blake3 (bytes : List Nat) : YamfHash ArrayVec :=
  .Blake3 ⟨blake3 bytes, le_of_eq (blake3_length bytes)⟩

/-- The `From<&YamfHash<ArrayVec<..>>> for YamfHash<&[u8]>` conversion:
borrow the owned digest as a slice. -/
def yamfHashFromOwned (h : YamfHash ArrayVec) : YamfHash (List Nat) :=
  match h with
  | .Blake3 v => .Blake3 v.data

/-- Rust slice-range assignment `out[lo..hi] = bs` (`copy_from_slice`):
`none` models the panic when the range is out of bounds or the source length
differs from the range length. -/
def writeSlice (out : List Nat) (lo hi : Nat) (bs : List Nat) :
    Option (List Nat) :=
  if lo ≤ hi ∧ hi ≤ out.length then
    if bs.length = hi - lo then some (out.take lo ++ bs ++ out.drop hi)
    else none
  else none

/-- `YamfHash::encoding_length`. -/
def YamfHash.encoding_length {T : Type} (h : YamfHash T) : Nat :=
  match h with
  | .Blake3 _ =>
    Varu64.encodingLength BLAKE3_NUMERIC_ID
      + Varu64.encodingLength BLAKE3_HASH_SIZE + BLAKE3_HASH_SIZE

/-- `YamfHash::encode`: with a large enough buffer, writes the varu64 of the
algorithm id into `out[0..1]`, the varu64 of the digest length into
`out[1..2]`, and copies the borrowed digest into `out[2..encoded_size]`;
otherwise returns `EncodeError` leaving `out` untouched.  The result pairs
the Rust return value with the final state of the `out` buffer; `none` is a
panic. -/
def YamfHash.encode {T : Type} (h : YamfHash T) (borrow : T → List Nat)
    (out : List Nat) : Option (Except Error Nat × List Nat) :=
  let encoded_size := h.encoding_length
  match h with
  | .Blake3 vec =>
    if encoded_size ≤ out.length then
      match writeSlice out 0 1 (Varu64.encode BLAKE3_NUMERIC_ID) with
      | none => none
      | some out1 =>
        match writeSlice out1 1 2 (Varu64.encode BLAKE3_HASH_SIZE) with
        | none => none
        | some out2 =>
          match writeSlice out2 2 encoded_size (borrow vec) with
          | none => none
          | some out3 => some (.ok encoded_size, out3)
    else some (.error .EncodeError, out)

/-- `YamfHash::decode`: decode a leading varu64; on algorithm id 0 with at
least 33 further bytes, skip one byte (the length field) and slice out 32
digest bytes, returning the rest; a varu64 failure is `DecodeVaru64Error`,
everything else `DecodeError`. -/
def YamfHash.decode (bytes : List Nat) :
    Except Error (YamfHash (List Nat) × List Nat) :=
  match Varu64.decode bytes with
  | .ok (id, remaining_bytes) =>
    if id = BLAKE3_NUMERIC_ID ∧ 33 ≤ remaining_bytes.length then
      .ok (.Blake3 ((remaining_bytes.drop 1).take 32), remaining_bytes.drop 33)
    else .error .DecodeError
  | .error _ => .error .DecodeVaru64Error

theorem decode_owned_digest_le (remaining_bytes : List Nat) :
    ((remaining_bytes.drop 1).take 32).length ≤ BLAKE3_HASH_SIZE := by
  simp [BLAKE3_HASH_SIZE, List.length_take]

/-- `YamfHash::decode_owned`: identical parsing, but the 32 digest bytes are
copied into a fresh `ArrayVec` (the `try_extend_from_slice(..).unwrap()`
cannot fail since 32 bytes fit the capacity, which the container's invariant
proof reflects). -/
def YamfHash.decode_owned (bytes : List Nat) :
    Except Error (YamfHash ArrayVec × List Nat) :=
  match Varu64.decode bytes with
  | .ok (id, remaining_bytes) =>
    if id = BLAKE3_NUMERIC_ID ∧ 33 ≤ remaining_bytes.length then
      .ok (.Blake3 ⟨(remaining_bytes.drop 1).take 32,
             decode_owned_digest_le remaining_bytes⟩,
           remaining_bytes.drop 33)
    else .error .DecodeError
  | .error _ => .error .DecodeVaru64Error

theorem varu64_encode_id : Varu64.encode BLAKE3_NUMERIC_ID = [0] := rfl

theorem varu64_encode_size : Varu64.encode BLAKE3_HASH_SIZE = [32] := rfl

theorem encoding_length_eq {T : Type} (vec : T) :
    (YamfHash.Blake3 vec).encoding_length = 34 := rfl

theorem writeSlice_eq (out : List Nat) (lo hi : Nat) (bs : List Nat)
    (h1 : lo ≤ hi) (h2 : hi ≤ out.length) (h3 : bs.length = hi - lo) :
    writeSlice out lo hi bs = some (out.take lo ++ bs ++ out.drop hi) := by
  simp [writeSlice, h1, h2, h3]

theorem encode_ok {T : Type} (borrow : T → List Nat) (vec : T) (out : List Nat)
    (hvec : (borrow vec).length = 32) (hout : 34 ≤ out.length) :
    (YamfHash.Blake3 vec).encode borrow out =
      some (.ok 34, 0 :: 32 :: (borrow vec ++ out.drop 34)) := by
  have h1 : writeSlice out 0 1 (Varu64.encode BLAKE3_NUMERIC_ID) =
      some (0 :: out.drop 1) := by
    rw [varu64_encode_id, writeSlice_eq out 0 1 [0] (by omega) (by omega) (by simp)]
    simp
  have h2 : writeSlice (0 :: out.drop 1) 1 2 (Varu64.encode BLAKE3_HASH_SIZE) =
      some (0 :: 32 :: out.drop 2) := by
    rw [varu64_encode_size,
      writeSlice_eq (0 :: out.drop 1) 1 2 [32] (by omega) (by simp; omega) (by simp)]
    simp [List.drop_drop]
  have h3 : writeSlice (0 :: 32 :: out.drop 2) 2 34 (borrow vec) =
      some (0 :: 32 :: (borrow vec ++ out.drop 34)) := by
    rw [writeSlice_eq (0 :: 32 :: out.drop 2) 2 34 (borrow vec) (by omega)
      (by simp; omega) (by simp [hvec])]
    simp [List.drop_drop]
  simp only [YamfHash.encode, encoding_length_eq]
  rw [if_pos hout]
  simp only [h1, h2, h3]

theorem encode_too_small {T : Type} (borrow : T → List Nat) (vec : T)
    (out : List Nat) (hout : out.length < 34) :
    (YamfHash.Blake3 vec).encode borrow out =
      some (.error .EncodeError, out) := by
  simp only [YamfHash.encode, encoding_length_eq]
  rw [if_neg (by omega)]

theorem encode_no_error {T : Type} (borrow : T → List Nat) (vec : T)
    (out : List Nat) (hout : 34 ≤ out.length) (e : Error) (out2 : List Nat) :
    (YamfHash.Blake3 vec).encode borrow out ≠ some (.error e, out2) := by
  simp only [YamfHash.encode, encoding_length_eq]
  rw [if_pos hout]
  cases hw1 : writeSlice out 0 1 (Varu64.encode BLAKE3_NUMERIC_ID) with
  | none => simp [hw1]
  | some out1 =>
    cases hw2 : writeSlice out1 1 2 (Varu64.encode BLAKE3_HASH_SIZE) with
    | none => simp [hw1, hw2]
    | some o2 =>
      cases hw3 : writeSlice o2 2 34 (borrow vec) with
      | none => simp [hw1, hw2, hw3]
      | some o3 => simp [hw1, hw2, hw3]

theorem varu64_decode_small (b : Nat) (tail : List Nat) (hb : b < 248) :
    Varu64.decode (b :: tail) = .ok (b, tail) := by
  simp [Varu64.decode, hb]

theorem decode_eq_ok (bytes rem : List Nat)
    (h : Varu64.decode bytes = .ok (0, rem)) (hlen : 33 ≤ rem.length) :
    YamfHash.decode bytes =
      .ok (.Blake3 ((rem.drop 1).take 32), rem.drop 33) := by
  simp [YamfHash.decode, h, BLAKE3_NUMERIC_ID, hlen]

theorem decode_owned_eq_ok (bytes rem : List Nat)
    (h : Varu64.decode bytes = .ok (0, rem)) (hlen : 33 ≤ rem.length) :
    YamfHash.decode_owned bytes =
      .ok (.Blake3 ⟨(rem.drop 1).take 32, decode_owned_digest_le rem⟩,
        rem.drop 33) := by
  simp [YamfHash.decode_owned, h, BLAKE3_NUMERIC_ID, hlen]

theorem decode_eq_varu_err (bytes : List Nat) (e : Varu64.DecodeErr)
    (h : Varu64.decode bytes = .error e) :
    YamfHash.decode bytes = .error .DecodeVaru64Error := by
  simp [YamfHash.decode, h]

theorem decode_eq_other_err (bytes rem : List Nat) (v : Nat)
    (h : Varu64.decode bytes = .ok (v, rem))
    (hcond : ¬(v = 0 ∧ 33 ≤ rem.length)) :
    YamfHash.decode bytes = .error .DecodeError := by
  simp only [YamfHash.decode, h, BLAKE3_NUMERIC_ID]
  rw [if_neg hcond]

/-- C4: the claim quantifies over arbitrary digest containers, but
`encoding_length` is the constant 34 whatever the container holds, so for a
4-byte container it differs from
`encoding_length(id) + encoding_length(len) + len = 6`, and `encode` into a
buffer of exactly `encoding_length` bytes panics (the `copy_from_slice`
length-mismatch, modelled as `none`) instead of succeeding. -/
theorem c4_counterexample :
    (YamfHash.Blake3 ([1, 2, 3, 4] : List Nat)).encoding_length ≠
        Varu64.encodingLength BLAKE3_NUMERIC_ID
          + Varu64.encodingLength ([1, 2, 3, 4] : List Nat).length
          + ([1, 2, 3, 4] : List Nat).length ∧
    (YamfHash.Blake3 ([1, 2, 3, 4] : List Nat)).encode id
        (List.replicate
          (YamfHash.Blake3 ([1, 2, 3, 4] : List Nat)).encoding_length 0) =
      none := by
  decide

/-- C4 (amended): for every `YamfHash::Blake3` whose borrowed digest holds
exactly 32 bytes, `encoding_length` equals
`encoding_length(algorithm_id) + encoding_length(digest_byte_length) +
digest_byte_length`, and `encode` into a buffer sized exactly
`encoding_length` succeeds, returning `bytes_written = encoding_length`. -/
theorem c4_amended {T : Type} (borrow : T → List Nat) (vec : T)
    (out : List Nat) (hvec : (borrow vec).length = 32)
    (hout : out.length = (YamfHash.Blake3 vec).encoding_length) :
    (YamfHash.Blake3 vec).encoding_length =
        Varu64.encodingLength BLAKE3_NUMERIC_ID
          + Varu64.encodingLength ((borrow vec).length)
          + (borrow vec).length ∧
    ∃ out3, (YamfHash.Blake3 vec).encode borrow out =
        some (.ok ((YamfHash.Blake3 vec).encoding_length), out3) := by
  constructor
  · rw [hvec]
    rfl
  · rw [encoding_length_eq] at hout ⊢
    exact ⟨_, encode_ok borrow vec out hvec (le_of_eq hout.symm)⟩

theorem c4_witness :
    (List.replicate 32 9).length = 32 ∧
    (List.replicate 34 0).length =
      (YamfHash.Blake3 (List.replicate 32 9)).encoding_length ∧
    ((YamfHash.Blake3 (List.replicate 32 9)).encoding_length =
        Varu64.encodingLength BLAKE3_NUMERIC_ID
          + Varu64.encodingLength (List.replicate 32 9).length
          + (List.replicate 32 9).length ∧
      ∃ out3, (YamfHash.Blake3 (List.replicate 32 9)).encode id
          (List.replicate 34 0) =
        some (.ok ((YamfHash.Blake3 (List.replicate 32 9)).encoding_length),
          out3)) :=
  ⟨by decide, by decide,
    c4_amended id (List.replicate 32 9) (List.replicate 34 0) (by decide)
      (by decide)⟩

/-- C5: for a default-algorithm value with a 32-byte digest and a large
enough buffer, `encode` returns `Ok(34)` and the buffer's first 34 bytes
become `0x00`, `0x20`, then the 32 raw digest bytes unchanged, while the
bytes beyond position 34 are untouched. -/
theorem c5_encode_layout {T : Type} (borrow : T → List Nat) (vec : T)
    (out : List Nat) (hvec : (borrow vec).length = 32)
    (hout : 34 ≤ out.length) :
    ∃ out3, (YamfHash.Blake3 vec).encode borrow out = some (.ok 34, out3) ∧
      out3.take 34 = 0 :: 32 :: borrow vec ∧
      out3.drop 34 = out.drop 34 := by
  refine ⟨_, encode_ok borrow vec out hvec hout, ?_, ?_⟩
  · have hsplit : (0 : Nat) :: 32 :: (borrow vec ++ List.drop 34 out) =
        ([0, 32] ++ borrow vec) ++ List.drop 34 out := by simp
    rw [hsplit, List.take_left' (by simp [hvec])]
    rfl
  · have hsplit : (0 : Nat) :: 32 :: (borrow vec ++ List.drop 34 out) =
        ([0, 32] ++ borrow vec) ++ List.drop 34 out := by simp
    rw [hsplit, List.drop_left' (by simp [hvec])]

theorem c5_witness :
    ∃ out3, (YamfHash.Blake3 (List.replicate 32 7)).encode id
        (List.replicate 40 3) = some (.ok 34, out3) ∧
      out3.take 34 = 0 :: 32 :: List.replicate 32 7 ∧
      out3.drop 34 = (List.replicate 40 3).drop 34 :=
  c5_encode_layout id (List.replicate 32 7) (List.replicate 40 3) (by decide)
    (by decide)

/-- C7: `encode` returns an encode error exactly when the output buffer is
shorter than `encoding_length`, the error is always `EncodeError`, and the
buffer is then returned unchanged (nothing was written). -/
theorem c7_encode_error_iff {T : Type} (borrow : T → List Nat)
    (v : YamfHash T) (out : List Nat) :
    ((∃ e out2, v.encode borrow out = some (.error e, out2)) ↔
      out.length < v.encoding_length) ∧
    ∀ e out2, v.encode borrow out = some (.error e, out2) →
      e = .EncodeError ∧ out2 = out := by
  obtain ⟨vec⟩ := v
  rw [encoding_length_eq]
  constructor
  · constructor
    · rintro ⟨e, out2, h⟩
      by_contra hge
      exact encode_no_error borrow vec out (by omega) e out2 h
    · intro hlt
      exact ⟨.EncodeError, out, encode_too_small borrow vec out hlt⟩
  · intro e out2 h
    by_cases hge : 34 ≤ out.length
    · exact absurd h (encode_no_error borrow vec out hge e out2)
    · rw [encode_too_small borrow vec out (by omega)] at h
      simpa using ⟨(Except.error.inj (congrArg Prod.fst (Option.some.inj h))).symm,
        (congrArg Prod.snd (Option.some.inj h)).symm⟩

theorem c7_witness :
    ((List.replicate 3 0).length <
      (YamfHash.Blake3 (List.replicate 32 1)).encoding_length) ∧
    ∃ e out2, (YamfHash.Blake3 (List.replicate 32 1)).encode id
        (List.replicate 3 0) = some (.error e, out2) ∧
      e = Error.EncodeError ∧ out2 = List.replicate 3 0 := by
  have h := c7_encode_error_iff id (YamfHash.Blake3 (List.replicate 32 1))
    (List.replicate 3 0)
  have hlt : (List.replicate 3 0).length <
      (YamfHash.Blake3 (List.replicate 32 1)).encoding_length := by decide
  obtain ⟨e, out2, he⟩ := h.1.mpr hlt
  exact ⟨hlt, e, out2, he, h.2 e out2 he⟩

/-- C10: under the precondition that the borrowed digest holds exactly 32
bytes, `encode` never panics (never `none`): it returns `Ok(34)` with the
written buffer, or `EncodeError` with the untouched buffer; without the
precondition the `copy_from_slice` length-mismatch panic is reachable. -/
theorem c10_encode_safety :
    (∀ (T : Type) (borrow : T → List Nat) (vec : T) (out : List Nat),
        (borrow vec).length = 32 →
        (YamfHash.Blake3 vec).encode borrow out ≠ none ∧
        ((YamfHash.Blake3 vec).encode borrow out =
            some (.ok 34, 0 :: 32 :: (borrow vec ++ out.drop 34)) ∨
          (YamfHash.Blake3 vec).encode borrow out =
            some (.error .EncodeError, out))) ∧
    ∃ vec out : List Nat,
      vec.length ≠ 32 ∧ (YamfHash.Blake3 vec).encode id out = none := by
  constructor
  · intro T borrow vec out hvec
    by_cases hout : 34 ≤ out.length
    · rw [encode_ok borrow vec out hvec hout]
      exact ⟨by simp, Or.inl rfl⟩
    · rw [encode_too_small borrow vec out (by omega)]
      exact ⟨by simp, Or.inr rfl⟩
  · exact ⟨[], List.replicate 34 0, by decide, by decide⟩

theorem c10_witness :
    (YamfHash.Blake3 (List.replicate 32 5)).encode id
        (List.replicate 34 0) ≠ none ∧
    ((YamfHash.Blake3 (List.replicate 32 5)).encode id (List.replicate 34 0) =
        some (.ok 34, 0 :: 32 ::
          (List.replicate 32 5 ++ (List.replicate 34 0).drop 34)) ∨
      (YamfHash.Blake3 (List.replicate 32 5)).encode id
          (List.replicate 34 0) =
        some (.error .EncodeError, List.replicate 34 0)) :=
  c10_encode_safety.1 (List Nat) id (List.replicate 32 5)
    (List.replicate 34 0) (by decide)

theorem decode_owned_eq_varu_err (bytes : List Nat) (e : Varu64.DecodeErr)
    (h : Varu64.decode bytes = .error e) :
    YamfHash.decode_owned bytes = .error .DecodeVaru64Error := by
  simp [YamfHash.decode_owned, h]

theorem decode_owned_eq_other_err (bytes rem : List Nat) (v : Nat)
    (h : Varu64.decode bytes = .ok (v, rem))
    (hcond : ¬(v = 0 ∧ 33 ≤ rem.length)) :
    YamfHash.decode_owned bytes = .error .DecodeError := by
  simp only [YamfHash.decode_owned, h, BLAKE3_NUMERIC_ID]
  rw [if_neg hcond]

theorem decode_eq_map_owned (bytes : List Nat) :
    YamfHash.decode bytes =
      Except.map (fun p => (yamfHashFromOwned p.1, p.2))
        (YamfHash.decode_owned bytes) := by
  cases hv : Varu64.decode bytes with
  | error e =>
    rw [decode_eq_varu_err bytes e hv, decode_owned_eq_varu_err bytes e hv]
    rfl
  | ok p =>
    obtain ⟨v, rem⟩ := p
    by_cases hc : v = 0 ∧ 33 ≤ rem.length
    · obtain ⟨rfl, hlen⟩ := hc
      rw [decode_eq_ok bytes rem hv hlen, decode_owned_eq_ok bytes rem hv hlen]
      rfl
    · rw [decode_eq_other_err bytes rem v hv hc,
        decode_owned_eq_other_err bytes rem v hv hc]
      rfl

/-- C2: the claim demands a dedicated unsupported-algorithm error, but an
input whose leading varu64 decodes to the unrecognized algorithm id 1 fails
with `Error::DecodeError` — the very same error kind that truncated input
produces — so the unsupported-algorithm failure is not distinct from the
insufficient-bytes failure. -/
theorem c2_counterexample :
    YamfHash.decode (1 :: List.replicate 40 0) = .error .DecodeError ∧
    YamfHash.decode_owned (1 :: List.replicate 40 0) = .error .DecodeError ∧
    YamfHash.decode (0 :: List.replicate 10 0) = .error .DecodeError := by
  decide

/-- C2 (amended): for every byte buffer whose leading varu64 decodes
successfully to a value other than 0, `decode` and `decode_owned` fail with
`Error::DecodeError`, which is distinct from the malformed-varu64 error but
is the same error kind the truncation/insufficient-bytes case produces —
there is no dedicated unsupported-algorithm error. -/
theorem c2_amended (bytes rem : List Nat) (v : Nat)
    (hdec : Varu64.decode bytes = .ok (v, rem)) (hv : v ≠ 0) :
    YamfHash.decode bytes = .error .DecodeError ∧
    YamfHash.decode_owned bytes = .error .DecodeError ∧
    Error.DecodeError ≠ Error.DecodeVaru64Error := by
  refine ⟨decode_eq_other_err bytes rem v hdec (fun hc => hv hc.1),
    decode_owned_eq_other_err bytes rem v hdec (fun hc => hv hc.1),
    by decide⟩

theorem c2_witness :
    YamfHash.decode (1 :: List.replicate 40 0) = .error .DecodeError ∧
    YamfHash.decode_owned (1 :: List.replicate 40 0) = .error .DecodeError ∧
    Error.DecodeError ≠ Error.DecodeVaru64Error :=
  c2_amended (1 :: List.replicate 40 0) (List.replicate 40 0) 1 (by decide)
    (by decide)

/-- C3: the claim says `decode` fails when the declared length byte differs
from 32, but decoding `[0x00, 0x05, <33 bytes of 7>]` — declared length 5 —
succeeds: the length byte is skipped without validation. -/
theorem c3_counterexample :
    YamfHash.decode (0 :: 5 :: List.replicate 33 7) =
      .ok (.Blake3 (List.replicate 32 7), [7]) := by
  decide

/-- C3 (amended): for every buffer whose leading varu64 decodes to algorithm
id 0 with at least 33 further bytes, `decode` succeeds for any value of the
declared length byte: it skips that byte unvalidated and slices the next 32
bytes, so every successfully decoded value still carries a digest whose
length (32) matches the length implied by algorithm id 0. -/
theorem c3_amended (bytes rem : List Nat)
    (hdec : Varu64.decode bytes = .ok (0, rem)) (hlen : 33 ≤ rem.length) :
    YamfHash.decode bytes =
      .ok (.Blake3 ((rem.drop 1).take 32), rem.drop 33) ∧
    ((rem.drop 1).take 32).length = 32 := by
  refine ⟨decode_eq_ok bytes rem hdec hlen, ?_⟩
  simp only [List.length_take, List.length_drop]
  omega

theorem c3_witness :
    YamfHash.decode (0 :: 5 :: List.replicate 33 7) =
      .ok (.Blake3 (((5 :: List.replicate 33 7).drop 1).take 32),
        (5 :: List.replicate 33 7).drop 33) ∧
    (((5 :: List.replicate 33 7).drop 1).take 32).length = 32 :=
  c3_amended (0 :: 5 :: List.replicate 33 7) (5 :: List.replicate 33 7)
    (by decide) (by decide)

/-- C6: a failing leading varu64 yields `DecodeVaru64Error`; a leading
varu64 decoding to algorithm id 0 with fewer than 33 bytes remaining yields
`DecodeError`; the two error kinds are distinct; and a successful decode
never returns a digest shorter (or longer) than 32 bytes. -/
theorem c6_decode_error_kinds (bytes : List Nat) :
    (∀ e, Varu64.decode bytes = .error e →
      YamfHash.decode bytes = .error .DecodeVaru64Error) ∧
    (∀ rem, Varu64.decode bytes = .ok (0, rem) → rem.length < 33 →
      YamfHash.decode bytes = .error .DecodeError) ∧
    Error.DecodeVaru64Error ≠ Error.DecodeError ∧
    ∀ d r, YamfHash.decode bytes = .ok (.Blake3 d, r) → d.length = 32 := by
  refine ⟨fun e he => decode_eq_varu_err bytes e he,
    fun rem h hlt => decode_eq_other_err bytes rem 0 h (by omega),
    by decide, ?_⟩
  intro d r hok
  cases hv : Varu64.decode bytes with
  | error e => rw [decode_eq_varu_err bytes e hv] at hok; cases hok
  | ok p =>
    obtain ⟨v, rem⟩ := p
    by_cases hc : v = 0 ∧ 33 ≤ rem.length
    · obtain ⟨rfl, hlen⟩ := hc
      rw [decode_eq_ok bytes rem hv hlen] at hok
      obtain ⟨h1, -⟩ := Prod.mk.injEq .. ▸ Except.ok.inj hok
      obtain rfl := (YamfHash.Blake3.injEq .. ▸ h1)
      simp only [List.length_take, List.length_drop]
      omega
    · rw [decode_eq_other_err bytes rem v hv hc] at hok; cases hok

theorem c6_witness :
    YamfHash.decode [248, 1] = .error .DecodeVaru64Error ∧
    YamfHash.decode [0] = .error .DecodeError ∧
    (List.replicate 32 7).length = 32 :=
  ⟨(c6_decode_error_kinds [248, 1]).1 .NonCanonical (by decide),
    (c6_decode_error_kinds [0]).2.1 [] (by decide) (by decide),
    (c6_decode_error_kinds (0 :: 32 :: List.replicate 32 7 ++ [9])).2.2.2
      (List.replicate 32 7) [9] (by decide)⟩

/-- C8: the `PartialEq` implementation compares values over possibly
different byte containers; equality holds exactly when both are `Blake3`
values whose borrowed digest bytes are bit-identical, and it is symmetric
across representations. -/
theorem c8_eq_repr_independent {A B : Type} (borrowA : A → List Nat)
    (borrowB : B → List Nat) (a : YamfHash A) (b : YamfHash B) :
    (yamfHashEq borrowA borrowB a b = true ↔
      ∃ dA dB, a = .Blake3 dA ∧ b = .Blake3 dB ∧ borrowA dA = borrowB dB) ∧
    yamfHashEq borrowA borrowB a b = yamfHashEq borrowB borrowA b a := by
  obtain ⟨dA⟩ := a
  obtain ⟨dB⟩ := b
  constructor
  · simp [yamfHashEq]
  · by_cases h : borrowA dA = borrowB dB
    · simp [yamfHashEq, h]
    · simp [yamfHashEq, h, Ne.symm h]

theorem c8_witness :
    (yamfHashEq id ArrayVec.data (YamfHash.Blake3 [1, 2])
        (YamfHash.Blake3 (⟨[1, 2], by decide⟩ : ArrayVec)) = true) ∧
    yamfHashEq id id (YamfHash.Blake3 [3]) (YamfHash.Blake3 [1, 2]) =
      yamfHashEq id id (YamfHash.Blake3 [1, 2]) (YamfHash.Blake3 [3]) :=
  ⟨(c8_eq_repr_independent id ArrayVec.data (YamfHash.Blake3 [1, 2])
      (YamfHash.Blake3 ⟨[1, 2], by decide⟩)).1.mpr
      ⟨[1, 2], ⟨[1, 2], by decide⟩, rfl, rfl, rfl⟩,
    (c8_eq_repr_independent id id (YamfHash.Blake3 [3])
      (YamfHash.Blake3 [1, 2])).2⟩

/-- C9: `decode` and `decode_owned` are equivalent parsers: `decode` equals
`decode_owned` followed by borrowing the owned digest (so they succeed and
fail on exactly the same inputs, with the same error kind and the same
remainder), and on success the borrowed and owned results compare equal
under the `PartialEq` model. -/
theorem c9_decode_equiv (bytes : List Nat) :
    YamfHash.decode bytes =
      Except.map (fun p => (yamfHashFromOwned p.1, p.2))
        (YamfHash.decode_owned bytes) ∧
    ∀ d r av r2, YamfHash.decode bytes = .ok (.Blake3 d, r) →
      YamfHash.decode_owned bytes = .ok (.Blake3 av, r2) →
      yamfHashEq id ArrayVec.data (.Blake3 d) (.Blake3 av) = true ∧ r = r2 := by
  refine ⟨decode_eq_map_owned bytes, ?_⟩
  intro d r av r2 h1 h2
  rw [decode_eq_map_owned bytes, h2] at h1
  simp only [Except.map, yamfHashFromOwned] at h1
  obtain ⟨h3, rfl⟩ := Prod.mk.injEq .. ▸ Except.ok.inj h1
  obtain rfl := (YamfHash.Blake3.injEq .. ▸ h3)
  exact ⟨by simp [yamfHashEq], rfl⟩

theorem c9_witness :
    (yamfHashEq id ArrayVec.data (YamfHash.Blake3 (List.replicate 32 7))
        (YamfHash.Blake3 (⟨List.replicate 32 7, by decide⟩ : ArrayVec)) =
      true) ∧
    ([] : List Nat) = [] :=
  (c9_decode_equiv (0 :: 32 :: List.replicate 32 7)).2
    (List.replicate 32 7) [] ⟨List.replicate 32 7, by decide⟩ []
    (by decide) (by decide)

/-- C1: encoding `compute(m)` (`new_blake3`) into a 34-byte buffer and
decoding the result yields a value equal (under `PartialEq`) to
`compute(m)` with an empty remainder, and decoding the encoding with a
trailing `0xAA` appended yields the same value with remainder `[0xAA]`. -/
theorem c1_roundtrip (m out : List Nat) (hout : out.length = 34) :
    ∃ enc digest,
      (new_blake3 m).encode ArrayVec.data out = some (.ok 34, enc) ∧
      YamfHash.decode enc = .ok (.Blake3 digest, []) ∧
      yamfHashEq id ArrayVec.data (.Blake3 digest) (new_blake3 m) = true ∧
      YamfHash.decode (enc ++ [0xAA]) = .ok (.Blake3 digest, [0xAA]) := by
  have h32 : (blake3 m).length = 32 := blake3_length m
  refine ⟨0 :: 32 :: blake3 m, blake3 m, ?_, ?_, ?_, ?_⟩
  · have henc := encode_ok ArrayVec.data
      (⟨blake3 m, le_of_eq (blake3_length m)⟩ : ArrayVec) out h32 (by omega)
    have hdrop : out.drop 34 = [] := List.drop_eq_nil_of_le (by omega)
    rw [show new_blake3 m =
        YamfHash.Blake3 (⟨blake3 m, le_of_eq (blake3_length m)⟩ : ArrayVec)
      from rfl, henc, hdrop]
    simp [ArrayVec.data]
  · have hv : Varu64.decode (0 :: 32 :: blake3 m) =
        .ok (0, 32 :: blake3 m) := varu64_decode_small 0 _ (by omega)
    rw [decode_eq_ok (0 :: 32 :: blake3 m) (32 :: blake3 m) hv
      (by simp [h32])]
    have ht : (blake3 m).take 32 = blake3 m :=
      List.take_of_length_le (le_of_eq h32)
    have hd : (blake3 m).drop 32 = [] :=
      List.drop_eq_nil_of_le (le_of_eq h32)
    simp [ht, hd]
  · simp [yamfHashEq, new_blake3, ArrayVec.data]
  · have hv : Varu64.decode (0 :: 32 :: (blake3 m ++ [0xAA])) =
        .ok (0, 32 :: (blake3 m ++ [0xAA])) :=
      varu64_decode_small 0 _ (by omega)
    have hshape : (0 :: 32 :: blake3 m) ++ [0xAA] =
        0 :: 32 :: (blake3 m ++ [0xAA]) := by simp
    rw [hshape, decode_eq_ok (0 :: 32 :: (blake3 m ++ [0xAA]))
      (32 :: (blake3 m ++ [0xAA])) hv (by simp [h32])]
    simp [List.take_left' h32, List.drop_left' h32]

theorem c1_witness :
    ∃ enc digest,
      (new_blake3 [1, 2, 3]).encode ArrayVec.data (List.replicate 34 0) =
        some (.ok 34, enc) ∧
      YamfHash.decode enc = .ok (.Blake3 digest, []) ∧
      yamfHashEq id ArrayVec.data (.Blake3 digest) (new_blake3 [1, 2, 3]) =
        true ∧
      YamfHash.decode (enc ++ [0xAA]) = .ok (.Blake3 digest, [0xAA]) :=
  c1_roundtrip [1, 2, 3] (List.replicate 34 0) (by decide)
